import Mathlib

/-!
Shallow embedding of the agentic tool-use engine of `github.com/yuriiter/ai`:
the conversation loop (`pkg/agent/agent.go`, plus the second variant of
`Agent.RunTurn` found in `pkg/voice/python_worker.go`) and the tool registry
(`pkg/tools/registry.go`).

Modelling conventions:
  * Go slices of messages become `List ChatMessage`.
  * Go strings become Lean `String`; where the source works on bytes
    (`len`, `s[:n]`) we use characters, which is equivalent on ASCII data.
  * External effects (the OpenAI chat call, `json.Unmarshal`, the MCP
    subprocess round-trip) are passed in as function parameters: the model
    oracle maps the request history to either an API error or the list of
    choices; `json.Unmarshal` into a map is a function returning an error,
    a nil map (Go decodes JSON `null` to a nil map) or an object.
  * A Go runtime panic (out-of-range slice index, re-slicing past the
    capacity) has no value semantics; it is modelled by a dedicated
    outcome (`TurnResult.panicked`) or by `Option.none` for the deferred
    history restore, and noted where it happens.
-/

/-- Message roles used by the agent (`openai.ChatMessageRole*`). -/
inductive Role where
  | system
  | user
  | assistant
  | tool
deriving DecidableEq, Repr

/-- `openai.FunctionCall`: the function name and raw JSON argument string of
one tool invocation requested by the model. -/
structure ToolCallFn where
  name : String
  arguments : String
deriving DecidableEq, Repr

/-- `openai.ToolCall`: a call identifier plus the function payload. -/
structure ToolCall where
  id : String
  function : ToolCallFn
deriving DecidableEq, Repr

/-- The fields of `openai.ChatCompletionMessage` that the engine reads or
writes: role, content, requested tool calls, and the `ToolCallID` linking a
tool-role result back to its invocation. -/
structure ChatMessage where
  role : Role
  content : String
  toolCalls : List ToolCall
  toolCallID : String
deriving DecidableEq, Repr

/-- The history cap: `const maxHistory = 10` in `Agent.pruneHistory`. -/
def maxHistory : Nat := 10

/-- `Agent.pruneHistory` (src/pkg/agent/agent.go): if the history exceeds the
cap, keep the leading system message (when present) plus the most recent
`maxHistory - 1` messages, otherwise keep the most recent `maxHistory`
messages.  `history.drop (history.length - k)` is Go's
`a.history[len(a.history)-k:]`. -/
def pruneHistory (history : List ChatMessage) : List ChatMessage :=
  if history.length ≤ maxHistory then history
  else
    match history with
    | first :: _ =>
      if first.role = Role.system then
        first :: history.drop (history.length - (maxHistory - 1))
      else
        history.drop (history.length - maxHistory)
    | [] => history.drop (history.length - maxHistory)

/-- A JSON value, as decoded by `encoding/json` into `interface\x7b\x7d`. -/
inductive Json where
  | null
  | bool (b : Bool)
  | num (n : Int)
  | str (s : String)
  | arr (elems : List Json)
  | obj (fields : List (String × Json))

/-- A decoded `map[string]interface\x7b\x7d` argument object. -/
def ArgsMap : Type := List (String × Json)

/-- The empty argument object (`make(map[string]interface\x7b\x7d)`). -/
def ArgsMap.empty : ArgsMap := []

/-- `tools.ToolType` (src/pkg/tools/registry.go). -/
inductive ToolType where
  | internal
  | mcp
deriving DecidableEq, Repr

/-- One content block of an MCP `tools/call` response. -/
structure MCPContent where
  type : String
  text : String
deriving DecidableEq, Repr

/-- The decoded MCP `tools/call` response: content blocks plus `isError`. -/
structure MCPOutput where
  content : List MCPContent
  isError : Bool
deriving DecidableEq, Repr

/-- `tools.ToolEntry`: the registered descriptor.  `name` and `description`
are the `openai.FunctionDefinition` fields the engine reads; the JSON
parameter schema is carried opaquely by the source and inspected by no code
path the claims touch, so it is omitted here.  `mcpClientId` stands for the
`*mcp.Client` back-reference (client identity). -/
structure ToolEntry where
  type : ToolType
  name : String
  description : String
  internalFn : String → Except String String
  mcpClientId : Nat

/-- `json.Unmarshal` of the model's argument string into a
`map[string]interface\x7b\x7d`, passed in as an environment function:
`Except.error ()` is a decode failure, `Except.ok none` is a nil map (Go
decodes JSON `null`, possibly with surrounding whitespace, to a nil map),
`Except.ok (some m)` is a decoded object. -/
def UnmarshalArgs : Type := String → Except Unit (Option ArgsMap)

/-- `mcp.Client.Call("tools/call", ...)`, passed in as an environment
function of the client identity, the tool name and the argument object;
it returns the raw response bytes or a transport error. -/
def MCPCall : Type := Nat → String → ArgsMap → Except String String

/-- `json.Unmarshal` of the raw `tools/call` response bytes into the
`content`/`isError` structure, passed in as an environment function. -/
def UnmarshalOutput : Type := String → Except Unit MCPOutput

/-- The argument-handling prefix of the MCP branch of `Registry.Execute`:
an empty string or the literal `"null"` becomes the empty object; otherwise
the string is unmarshalled, a decode failure is the hard error
`"invalid json args from model"` (the source wraps the decode error after
this prefix), and a nil map is replaced by the empty object
(`if argsMap == nil`). -/
def parseArgs (uArgs : UnmarshalArgs) (argsJSON : String) : Except String ArgsMap :=
  if argsJSON = "" ∨ argsJSON = "null" then Except.ok ArgsMap.empty
  else
    match uArgs argsJSON with
    | Except.error _ => Except.error "invalid json args from model"
    | Except.ok none => Except.ok ArgsMap.empty
    | Except.ok (some m) => Except.ok m

/-- The remote-invocation suffix of the MCP branch of `Registry.Execute`:
call the owning client with `\x7bname, arguments\x7d`, decode the response
(a decode failure is `"failed to parse mcp response"`), then fold the
`isError` flag and the content blocks into the result text exactly as the
source does. -/
def mcpInvoke (call : MCPCall) (uOut : UnmarshalOutput) (clientId : Nat)
    (name : String) (argsMap : ArgsMap) : Except String String :=
  match call clientId name argsMap with
  | Except.error e => Except.error e
  | Except.ok resBytes =>
    match uOut resBytes with
    | Except.error _ => Except.error "failed to parse mcp response"
    | Except.ok output =>
      if output.isError then
        match output.content with
        | c :: _ => Except.ok ("Tool Error: " ++ c.text)
        | [] => Except.ok "Tool failed with unspecified error"
      else
        match output.content with
        | c :: _ => Except.ok c.text
        | [] => Except.ok "success"

/-- The body of `Registry.Execute` once the entry with the matching name is
found: dispatch on the descriptor kind. -/
def executeEntry (uArgs : UnmarshalArgs) (call : MCPCall) (uOut : UnmarshalOutput)
    (t : ToolEntry) (name argsJSON : String) : Except String String :=
  match t.type with
  | ToolType.internal => t.internalFn argsJSON
  | ToolType.mcp =>
    match parseArgs uArgs argsJSON with
    | Except.error e => Except.error e
    | Except.ok m => mcpInvoke call uOut t.mcpClientId name m

/-- `Registry.Execute` (src/pkg/tools/registry.go): scan the registered
entries in order and dispatch on the first whose `Definition.Name` equals
the requested name; an unmatched name is the hard error
`"tool <name> not found"`. -/
def Execute (uArgs : UnmarshalArgs) (call : MCPCall) (uOut : UnmarshalOutput) :
    List ToolEntry → String → String → Except String String
  | [], name, _ => Except.error ("tool " ++ name ++ " not found")
  | t :: rest, name, argsJSON =>
    if t.name = name then executeEntry uArgs call uOut t name argsJSON
    else Execute uArgs call uOut rest name argsJSON

/-- The first registered entry with the given name, if any (the entry
`Registry.Execute` dispatches to). -/
def findTool (reg : List ToolEntry) (name : String) : Option ToolEntry :=
  reg.find? (fun t => t.name = name)

/-- One advertised tool from a `tools/list` response, after decoding. -/
structure MCPToolInfo where
  name : String
  description : String
deriving DecidableEq, Repr

/-- `Registry.LoadMCPTools` (src/pkg/tools/registry.go), after the
subprocess round-trip: append one MCP entry per advertised tool, in
advertisement order, all back-referencing the new client.  The source
performs no name deduplication.  (`sanitizeSchema` only shapes the opaque
parameter schema and is omitted with it.) -/
def LoadMCPTools (reg : List ToolEntry) (clientId : Nat)
    (advertised : List MCPToolInfo) : List ToolEntry :=
  reg ++ advertised.map (fun t =>
    { type := ToolType.mcp
      name := t.name
      description := t.description
      internalFn := fun _ => Except.ok ""
      mcpClientId := clientId })

/-- Go `strings.Split(s, sep)` for a single-character separator, on the
character list of the string. -/
def goSplit (sep : Char) : List Char → List (List Char)
  | [] => [[]]
  | c :: rest =>
    if c = sep then [] :: goSplit sep rest
    else
      match goSplit sep rest with
      | [] => [[c]]
      | h :: t => (c :: h) :: t

/-- Go `strings.TrimSpace` restricted to the ASCII whitespace the engine
ever meets (space, tab, newline, carriage return). -/
def goTrimSpace (s : List Char) : List Char :=
  ((s.dropWhile Char.isWhitespace).reverse.dropWhile Char.isWhitespace).reverse

/-- The tool-name sanitization inside `Agent.RunTurn`
(src/pkg/agent/agent.go):
`strings.Split(name, "\x7b")[0]`, then `strings.Split(_, "=")[0]`, then
`strings.TrimSpace`. -/
def cleanToolName (name : String) : String :=
  let s1 := (goSplit '{' name.data).headD []
  let s2 := (goSplit '=' s1).headD []
  String.mk (goTrimSpace s2)

/-- The user message `Agent.RunTurn` appends for the submitted prompt. -/
def userMsg (prompt : String) : ChatMessage :=
  { role := Role.user, content := prompt, toolCalls := [], toolCallID := "" }

/-- The configuration fields of `config.Config` that `Agent.RunTurn` reads
for control flow (`Model`, `Temperature` and friends only decorate the
outgoing request and are omitted). -/
structure AgentConfig where
  retainHistory : Bool
  maxSteps : Nat
deriving DecidableEq, Repr

/-- The chat-completion call `a.client.CreateChatCompletion`, passed in as
an oracle mapping the request's message list (the current history) to
either an API error or the response's choice list, each choice standing
for its `Message`. -/
def ModelOracle : Type := List ChatMessage → Except Unit (List ChatMessage)

/-- Outcome of one `Agent.RunTurn` (src/pkg/agent/agent.go).
`panicked` models the Go runtime panic raised by `resp.Choices[0]` when
the choice list is empty — that variant has no emptiness guard. -/
inductive TurnResult where
  | done (text : String)
  | apiError
  | stepLimit
  | panicked
deriving DecidableEq, Repr

/-- The tool-execution body inside `Agent.RunTurn` for one requested call:
sanitize the name, execute via the registry, fold an execution error into
the output text (`"Error executing tool: <err>"`), truncate output beyond
10000 (the source counts bytes; characters here), and wrap it as a
tool-role message tagged with the originating call id. -/
def runToolCall (uArgs : UnmarshalArgs) (call : MCPCall) (uOut : UnmarshalOutput)
    (reg : List ToolEntry) (tc : ToolCall) : ChatMessage :=
  let cleanName := cleanToolName tc.function.name
  let output :=
    match Execute uArgs call uOut reg cleanName tc.function.arguments with
    | Except.ok o => o
    | Except.error e => "Error executing tool: " ++ e
  let output :=
    if output.length > 10000 then (String.mk (output.data.take 10000)) ++ "\n...(truncated output)"
    else output
  { role := Role.tool, content := output, toolCalls := [], toolCallID := tc.id }

/-- The `for steps < maxSteps` loop of `Agent.RunTurn`
(src/pkg/agent/agent.go), structured on the remaining step budget: when the
budget is exhausted the turn ends with the step-limit error; otherwise one
model call is made with the current history, an API error aborts the turn,
an empty choice list hits the unguarded `resp.Choices[0]` (a runtime
panic), and otherwise the first choice is appended; a reply carrying tool
calls while agentic mode is on executes every call in order, appends the
tool-result messages and loops, and any other reply is the final answer. -/
def runTurnLoop (uArgs : UnmarshalArgs) (call : MCPCall) (uOut : UnmarshalOutput)
    (reg : List ToolEntry) (agenticMode : Bool) (model : ModelOracle) :
    Nat → List ChatMessage → TurnResult × List ChatMessage
  | 0, history => (TurnResult.stepLimit, history)
  | fuel + 1, history =>
    match model history with
    | Except.error _ => (TurnResult.apiError, history)
    | Except.ok [] => (TurnResult.panicked, history)
    | Except.ok (msg :: _) =>
      let h1 := history ++ [msg]
      if 0 < msg.toolCalls.length ∧ agenticMode = true then
        let toolMsgs := msg.toolCalls.map (runToolCall uArgs call uOut reg)
        runTurnLoop uArgs call uOut reg agenticMode model fuel (h1 ++ toolMsgs)
      else
        (TurnResult.done msg.content, h1)

/-- The deferred history restore of `Agent.RunTurn`:
`a.history = a.history[:historyStartLen]` runs (when retention is off) on
every exit path, panics included.  Go re-slicing up to `historyStartLen` is
only the first `historyStartLen` messages when the slice is at least that
long; when pruning left the slice shorter, the re-slice reaches past the
slice's length — past its capacity it panics with a bounds error, within
spare capacity it exposes stale backing-array slots — and in neither case
restores the pre-turn messages: modelled as `none`. -/
def restoreHistory (retain : Bool) (startLen : Nat) (history : List ChatMessage) :
    Option (List ChatMessage) :=
  if retain then some history
  else if startLen ≤ history.length then some (history.take startLen)
  else none

/-- `Agent.RunTurn` (src/pkg/agent/agent.go): record the entry length,
prune, append the user message, pick `maxSteps` (1 when agentic mode is
off, the configured bound otherwise), run the loop, then apply the
deferred restore.  The result pairs the loop's outcome with the post-defer
history (`none` when the deferred re-slice itself fails, see
`restoreHistory`). -/
def RunTurn (uArgs : UnmarshalArgs) (call : MCPCall) (uOut : UnmarshalOutput)
    (reg : List ToolEntry) (cfg : AgentConfig) (agenticMode : Bool)
    (model : ModelOracle) (prompt : String) (history : List ChatMessage) :
    TurnResult × Option (List ChatMessage) :=
  let historyStartLen := history.length
  let h1 := pruneHistory history
  let h2 := h1 ++ [userMsg prompt]
  let maxSteps := if agenticMode then cfg.maxSteps else 1
  let r := runTurnLoop uArgs call uOut reg agenticMode model maxSteps h2
  (r.1, restoreHistory cfg.retainHistory historyStartLen r.2)

/-- Outcome of the second `Agent.RunTurn` variant
(src/pkg/voice/python_worker.go): this variant guards the empty choice
list, returning the error `"api returned empty response (no choices)"`
instead of indexing into it. -/
inductive TurnResultV2 where
  | done (text : String)
  | apiError
  | noChoicesError
  | stepLimit
deriving DecidableEq, Repr

/-- The loop of the second `Agent.RunTurn` variant
(src/pkg/voice/python_worker.go): identical to `runTurnLoop` except that
`len(resp.Choices) == 0` returns a hard error before `resp.Choices[0]`. -/
def runTurnLoopV2 (uArgs : UnmarshalArgs) (call : MCPCall) (uOut : UnmarshalOutput)
    (reg : List ToolEntry) (agenticMode : Bool) (model : ModelOracle) :
    Nat → List ChatMessage → TurnResultV2 × List ChatMessage
  | 0, history => (TurnResultV2.stepLimit, history)
  | fuel + 1, history =>
    match model history with
    | Except.error _ => (TurnResultV2.apiError, history)
    | Except.ok [] => (TurnResultV2.noChoicesError, history)
    | Except.ok (msg :: _) =>
      let h1 := history ++ [msg]
      if 0 < msg.toolCalls.length ∧ agenticMode = true then
        let toolMsgs := msg.toolCalls.map (runToolCall uArgs call uOut reg)
        runTurnLoopV2 uArgs call uOut reg agenticMode model fuel (h1 ++ toolMsgs)
      else
        (TurnResultV2.done msg.content, h1)

/-- The second `Agent.RunTurn` variant (src/pkg/voice/python_worker.go):
same shape as `RunTurn` but with the retrieval-augmentation block between
pruning and the user append — `ragGlob` and `ragChunks` mirror
`a.config.RagGlob` and `len(a.RagEngine.Chunks)`, and `ragAugment` stands
for the keyword-generation/search/context-building block that produces the
final prompt when retrieval is active — and with the guarded loop. -/
def RunTurnV2 (uArgs : UnmarshalArgs) (call : MCPCall) (uOut : UnmarshalOutput)
    (reg : List ToolEntry) (cfg : AgentConfig) (agenticMode : Bool)
    (ragGlob : String) (ragChunks : Nat) (ragAugment : String → String)
    (model : ModelOracle) (prompt : String) (history : List ChatMessage) :
    TurnResultV2 × Option (List ChatMessage) :=
  let historyStartLen := history.length
  let h1 := pruneHistory history
  let finalPrompt := if ragGlob ≠ "" ∧ 0 < ragChunks then ragAugment prompt else prompt
  let h2 := h1 ++ [userMsg finalPrompt]
  let maxSteps := if agenticMode then cfg.maxSteps else 1
  let r := runTurnLoopV2 uArgs call uOut reg agenticMode model maxSteps h2
  (r.1, restoreHistory cfg.retainHistory historyStartLen r.2)

/-- The spec's no-dangling-reference property for pruning: no retained
tool-role message references a tool-call id whose originating assistant
message (present in the unpruned history) was trimmed away. -/
def noDanglingToolResult (old pruned : List ChatMessage) : Prop :=
  ∀ m ∈ pruned, m.role = Role.tool →
    (∃ a ∈ old, ∃ tc ∈ a.toolCalls, tc.id = m.toolCallID) →
    ∃ a ∈ pruned, ∃ tc ∈ a.toolCalls, tc.id = m.toolCallID

/-- The spec's description of name sanitization: strip everything from the
first brace or equals sign onward. -/
def stripFromBraceOrEq (s : List Char) : List Char :=
  s.takeWhile (fun c => !(c == '{' || c == '='))

/-- Concrete fixtures used by the counterexamples and witnesses below. -/
def userM : ChatMessage := { role := Role.user, content := "hello", toolCalls := [], toolCallID := "" }

/-- A leading system message. -/
def sysM : ChatMessage := { role := Role.system, content := "You are a helpful assistant.", toolCalls := [], toolCallID := "" }

/-- An assistant reply requesting one tool call (empty argument string). -/
def toolCallReply : ChatMessage :=
  { role := Role.assistant, content := ""
    toolCalls := [{ id := "call_1", function := { name := "echo", arguments := "" } }]
    toolCallID := "" }

/-- The tool-role result answering `call_1`. -/
def toolResMsg : ChatMessage := { role := Role.tool, content := "hello", toolCalls := [], toolCallID := "call_1" }

/-- An argument decoder that rejects every string. -/
def uArgs0 : UnmarshalArgs := fun _ => Except.error ()

/-- A remote call that always succeeds with fixed response bytes. -/
def call0 : MCPCall := fun _ _ _ => Except.ok "raw"

/-- A response decoder yielding an empty, non-error content list. -/
def uOut0 : UnmarshalOutput := fun _ => Except.ok { content := [], isError := false }

/-- A 200-message pre-turn history (well beyond the pruning cap and beyond
any capacity the pruned 10-message slice can retain). -/
def c1hist : List ChatMessage := sysM :: List.replicate 199 userM

/-- A model oracle that always fails the chat call. -/
def c1model : ModelOracle := fun _ => Except.error ()

/-- A model oracle that always returns an empty choice list. -/
def c2model : ModelOracle := fun _ => Except.ok []

/-- An 11-message history whose assistant tool-call message sits exactly one
position before the pruning boundary while its tool result sits on it. -/
def c3hist : List ChatMessage := sysM :: toolCallReply :: toolResMsg :: List.replicate 8 userM

/-- A model oracle whose every reply requests a tool call. -/
def c4model : ModelOracle := fun _ => Except.ok [toolCallReply]

/-- An 11-message history headed by the system message. -/
def c5hist : List ChatMessage := sysM :: List.replicate 10 userM

/-- A registry holding one remote no-parameter tool. -/
def noopEntry : ToolEntry :=
  { type := ToolType.mcp, name := "noop", description := "does nothing"
    internalFn := fun _ => Except.ok "", mcpClientId := 0 }

/-- The registry for the argument-leniency witness. -/
def regW : List ToolEntry := [noopEntry]

/-- A response decoder reporting a tool failure with one content block. -/
def uOutErr : UnmarshalOutput := fun _ => Except.ok { content := [{ type := "text", text := "boom" }], isError := true }

/-- A response decoder reporting success whose first content block's text is
empty. -/
def uOutEmptyText : UnmarshalOutput := fun _ => Except.ok { content := [{ type := "text", text := "" }], isError := false }

/-- A response decoder reporting success with one non-empty content block
followed by a second block. -/
def uOutTwoBlocks : UnmarshalOutput := fun _ =>
  Except.ok { content := [{ type := "text", text := "first" }, { type := "text", text := "second" }], isError := false }

/-- The registry produced by loading two remote sources that both advertise
a tool named `echo`. -/
def registryDup : List ToolEntry :=
  LoadMCPTools (LoadMCPTools [] 0 [{ name := "echo", description := "from server A" }])
    1 [{ name := "echo", description := "from server B" }]

/-- The entry the first load registered for `echo`. -/
def echoEntryA : ToolEntry :=
  { type := ToolType.mcp, name := "echo", description := "from server A"
    internalFn := fun _ => Except.ok "", mcpClientId := 0 }

/-! ## Helper lemmas -/

lemma goSplit_ne_nil (sep : Char) (l : List Char) : goSplit sep l ≠ [] := by
  cases l with
  | nil => simp [goSplit]
  | cons c rest =>
    simp only [goSplit]
    split
    · simp
    · cases h : goSplit sep rest <;> simp

lemma goSplit_headD (sep : Char) (l : List Char) :
    (goSplit sep l).headD [] = l.takeWhile (fun c => !(c == sep)) := by
  induction l with
  | nil => rfl
  | cons c rest ih =>
    by_cases hc : c = sep
    · subst hc
      simp [goSplit, List.takeWhile_cons]
    · have hb : (c == sep) = false := by simp [hc]
      cases hrec : goSplit sep rest with
      | nil => exact absurd hrec (goSplit_ne_nil sep rest)
      | cons h t =>
        rw [hrec] at ih
        simp [goSplit, hc, hrec, List.takeWhile_cons, hb]
        simpa using ih

lemma takeWhile_not_brace_eq (l : List Char) :
    (l.takeWhile (fun c => !(c == '{'))).takeWhile (fun c => !(c == '=')) =
      l.takeWhile (fun c => !(c == '{' || c == '=')) := by
  induction l with
  | nil => rfl
  | cons c rest ih =>
    cases h1 : c == '{' <;> cases h2 : c == '=' <;>
      simp [List.takeWhile_cons, h1, h2, ih]

lemma execute_eq_findTool (uArgs : UnmarshalArgs) (call : MCPCall) (uOut : UnmarshalOutput) :
    ∀ (reg : List ToolEntry) (name argsJSON : String) (t : ToolEntry),
      findTool reg name = some t →
      Execute uArgs call uOut reg name argsJSON = executeEntry uArgs call uOut t name argsJSON := by
  intro reg
  induction reg with
  | nil => intro name argsJSON t h; simp [findTool] at h
  | cons hd tl ih =>
    intro name argsJSON t h
    by_cases hn : hd.name = name
    · have : t = hd := by
        simp [findTool, List.find?, hn] at h
        exact h.symm
      subst this
      simp [Execute, hn]
    · have h' : findTool tl name = some t := by
        simpa [findTool, List.find?, hn] using h
      simp [Execute, hn]
      exact ih name argsJSON t h'

lemma pruneHistory_system (hd : ChatMessage) (tl : List ChatMessage)
    (hlen : maxHistory < (hd :: tl).length) (hsys : hd.role = Role.system) :
    pruneHistory (hd :: tl) = hd :: (hd :: tl).drop ((hd :: tl).length - (maxHistory - 1)) := by
  unfold pruneHistory
  rw [if_neg (by omega)]
  simp [hsys]

lemma pruneHistory_nonsystem (hd : ChatMessage) (tl : List ChatMessage)
    (hlen : maxHistory < (hd :: tl).length) (hsys : hd.role ≠ Role.system) :
    pruneHistory (hd :: tl) = (hd :: tl).drop ((hd :: tl).length - maxHistory) := by
  unfold pruneHistory
  rw [if_neg (by omega)]
  simp [hsys]

lemma runTurnLoop_all_tool_replies (uArgs : UnmarshalArgs) (call : MCPCall)
    (uOut : UnmarshalOutput) (reg : List ToolEntry) (model : ModelOracle)
    (hm : ∀ h, ∃ c cs, model h = Except.ok (c :: cs) ∧ c.toolCalls ≠ []) :
    ∀ (fuel : Nat) (h : List ChatMessage),
      (runTurnLoop uArgs call uOut reg true model fuel h).1 = TurnResult.stepLimit := by
  intro fuel
  induction fuel with
  | zero => intro h; rfl
  | succ n ih =>
    intro h
    obtain ⟨c, cs, hmc, htc⟩ := hm h
    have hlen : 0 < c.toolCalls.length := List.length_pos.mpr htc
    simp only [runTurnLoop, hmc]
    rw [if_pos ⟨hlen, trivial⟩]
    exact ih _

/-! ## Claim theorems -/

/-- C5: for a history whose first message is a system message and whose
length exceeds the cap of 10, pruning keeps that system message first and
exactly the 9 most recent messages after it (total length exactly 10); for
a history with no leading system message, pruning keeps exactly the 10 most
recent messages. -/
theorem pruneHistory_pins_system_and_caps (h : List ChatMessage) (hlen : 10 < h.length) :
    (∀ hd tl, h = hd :: tl → hd.role = Role.system →
      pruneHistory h = hd :: h.drop (h.length - 9) ∧
      (pruneHistory h).head? = some hd ∧ (pruneHistory h).length = 10) ∧
    (∀ hd tl, h = hd :: tl → hd.role ≠ Role.system →
      pruneHistory h = h.drop (h.length - 10) ∧ (pruneHistory h).length = 10) := by
  constructor
  · intro hd tl hh hsys
    subst hh
    have hlen' : maxHistory < (hd :: tl).length := by simpa [maxHistory] using hlen
    have e : pruneHistory (hd :: tl) = hd :: (hd :: tl).drop ((hd :: tl).length - 9) := by
      simpa [maxHistory] using pruneHistory_system hd tl hlen' hsys
    refine ⟨e, by rw [e]; rfl, ?_⟩
    rw [e]
    simp only [List.length_cons, List.length_drop]
    simp only [List.length_cons] at hlen
    omega
  · intro hd tl hh hsys
    subst hh
    have hlen' : maxHistory < (hd :: tl).length := by simpa [maxHistory] using hlen
    have e : pruneHistory (hd :: tl) = (hd :: tl).drop ((hd :: tl).length - 10) := by
      simpa [maxHistory] using pruneHistory_nonsystem hd tl hlen' hsys
    refine ⟨e, ?_⟩
    rw [e]
    simp only [List.length_drop]
    simp only [List.length_cons] at hlen ⊢
    omega

/-- Witness for C5 at an 11-message history headed by a system message. -/
theorem pruneHistory_pins_system_and_caps_witness :
    pruneHistory c5hist = sysM :: c5hist.drop (c5hist.length - 9) ∧
    (pruneHistory c5hist).head? = some sysM ∧ (pruneHistory c5hist).length = 10 :=
  (pruneHistory_pins_system_and_caps c5hist (by decide)).1 sysM (List.replicate 10 userM) rfl rfl

/-- C3 counterexample: pruning an 11-message history whose assistant
tool-call message lies just outside the trim boundary retains the
tool-role result `call_1` while trimming its originating assistant
message, leaving a dangling `toolCallId` reference — the claimed
invariant fails on the code. -/
theorem pruneHistory_splits_tool_pair :
    ¬ noDanglingToolResult c3hist (pruneHistory c3hist) := by
  unfold noDanglingToolResult
  decide

/-- C3 amended: pruning trims at individual-message granularity — for a
history longer than the cap with a leading system message the result is
exactly the pinned head plus the 9 most recent messages by position,
irrespective of tool-call/tool-result pairing, so a retained tool-role
message may reference a trimmed assistant tool-call message. -/
theorem pruneHistory_positional_slicing (h : List ChatMessage) (hd : ChatMessage)
    (tl : List ChatMessage) (hh : h = hd :: tl) (hlen : 10 < h.length)
    (hsys : hd.role = Role.system) :
    pruneHistory h = hd :: h.drop (h.length - 9) := by
  subst hh
  have hlen' : maxHistory < (hd :: tl).length := by simpa [maxHistory] using hlen
  simpa [maxHistory] using pruneHistory_system hd tl hlen' hsys

/-- Witness for the amended C3 at the pair-splitting history. -/
theorem pruneHistory_positional_slicing_witness :
    pruneHistory c3hist = sysM :: c3hist.drop (c3hist.length - 9) :=
  pruneHistory_positional_slicing c3hist sysM
    (toolCallReply :: toolResMsg :: List.replicate 8 userM) rfl (by decide) rfl

/-- C8: the tool-name sanitization strips everything from the first brace
or equals sign onward and trims surrounding whitespace; in particular a
name carrying an appended JSON fragment or an `=value` suffix resolves to
the bare tool name. -/
theorem clean_tool_name_strips_brace_and_eq :
    (∀ name : String,
      cleanToolName name = String.mk (goTrimSpace (stripFromBraceOrEq name.data))) ∧
    cleanToolName "get_weather\x7b\"city\":\"X\"\x7d" = "get_weather" ∧
    cleanToolName "get_weather=1" = "get_weather" ∧
    cleanToolName " get_weather " = "get_weather" := by
  refine ⟨?_, by decide, by decide, by decide⟩
  intro name
  simp only [cleanToolName, stripFromBraceOrEq]
  rw [goSplit_headD, goSplit_headD, takeWhile_not_brace_eq]

set_option maxRecDepth 8000 in
/-- C1 at its failing input: with retention disabled, a 200-message
pre-turn history and a turn that aborts on the first model call, the
deferred restore re-slices the 11-message post-prune history up to index
200 — far past its length and capacity, a Go slice-bounds panic (`none`)
instead of a returned history of the pre-turn length. -/
theorem history_restore_reslice_out_of_range :
    RunTurn uArgs0 call0 uOut0 [] { retainHistory := false, maxSteps := 10 } true
      c1model "hi" c1hist = (TurnResult.apiError, none) := by
  rfl

/-- C2 at its failing input: on a model response whose choice list is
empty, the primary `Agent.RunTurn` (src/pkg/agent/agent.go) reaches the
unguarded `resp.Choices[0]` and panics, while the second variant
(src/pkg/voice/python_worker.go) returns the hard error the claim
describes. -/
theorem empty_choice_list_unguarded_vs_guarded :
    (RunTurn uArgs0 call0 uOut0 [] { retainHistory := true, maxSteps := 10 } true
      c2model "hi" []).1 = TurnResult.panicked ∧
    (RunTurnV2 uArgs0 call0 uOut0 [] { retainHistory := true, maxSteps := 10 } true
      "" 0 id c2model "hi" []).1 = TurnResultV2.noChoicesError :=
  ⟨rfl, rfl⟩

/-- C4 counterexample: with agentic mode disabled and a model whose every
reply requests a tool call, the turn returns the reply as a successful
final answer after a single model call — not the claimed step-limit
error. -/
theorem nonagentic_tool_reply_returns_success :
    (RunTurn uArgs0 call0 uOut0 [] { retainHistory := true, maxSteps := 10 } false
      c4model "hi" []).1 = TurnResult.done "" ∧
    (RunTurn uArgs0 call0 uOut0 [] { retainHistory := true, maxSteps := 10 } false
      c4model "hi" []).1 ≠ TurnResult.stepLimit := by
  exact ⟨rfl, by decide⟩

/-- C4 amended: in agentic mode, for every model-reply sequence in which
every reply requests at least one tool call, the loop runs at most
`cfg.maxSteps` model-call-then-execute cycles (the loop recursion consumes
one unit of the step budget per cycle) and the turn returns the step-limit
error; with agentic mode disabled the budget is 1 but a tool-call reply is
treated as a final answer, so the single model call ends the turn
successfully with the reply's text. -/
theorem step_limit_amended (uArgs : UnmarshalArgs) (call : MCPCall) (uOut : UnmarshalOutput)
    (reg : List ToolEntry) (cfg : AgentConfig) (model : ModelOracle)
    (prompt : String) (history : List ChatMessage)
    (hm : ∀ h, ∃ c cs, model h = Except.ok (c :: cs) ∧ c.toolCalls ≠ []) :
    (RunTurn uArgs call uOut reg cfg true model prompt history).1 = TurnResult.stepLimit ∧
    ∀ c cs, model (pruneHistory history ++ [userMsg prompt]) = Except.ok (c :: cs) →
      (RunTurn uArgs call uOut reg cfg false model prompt history).1 = TurnResult.done c.content := by
  constructor
  · simp only [RunTurn, if_pos]
    exact runTurnLoop_all_tool_replies uArgs call uOut reg model hm cfg.maxSteps _
  · intro c cs hmc
    simp only [RunTurn, if_neg]
    simp only [Bool.false_eq_true, if_false]
    simp only [runTurnLoop, hmc]
    rw [if_neg (by simp)]

/-- Witness for the amended C4: a model that always requests the `echo`
tool exhausts a step budget of 2 and the turn ends with the step-limit
error. -/
theorem step_limit_amended_witness :
    (RunTurn uArgs0 call0 uOut0 [] { retainHistory := true, maxSteps := 2 } true
      c4model "hi" []).1 = TurnResult.stepLimit :=
  (step_limit_amended uArgs0 call0 uOut0 [] { retainHistory := true, maxSteps := 2 }
    c4model "hi" [] (fun _ => ⟨toolCallReply, [], rfl, by decide⟩)).1

/-- C6: for a remote tool, an empty or literal-`null` argument string is
executed as the empty-object argument set (the turn proceeds straight to
the remote invocation, no argument error), while a non-empty argument
string the decoder rejects makes `Execute` return the hard error
`invalid json args from model` — for every possible remote client, i.e.
without consulting it. -/
theorem execute_argument_leniency (uArgs : UnmarshalArgs) (call : MCPCall)
    (uOut : UnmarshalOutput) (reg : List ToolEntry) (name : String) (t : ToolEntry)
    (hfind : findTool reg name = some t) (ht : t.type = ToolType.mcp) :
    Execute uArgs call uOut reg name "" = mcpInvoke call uOut t.mcpClientId name ArgsMap.empty ∧
    Execute uArgs call uOut reg name "null" = mcpInvoke call uOut t.mcpClientId name ArgsMap.empty ∧
    ∀ args : String, args ≠ "" → args ≠ "null" → uArgs args = Except.error () →
      Execute uArgs call uOut reg name args = Except.error "invalid json args from model" := by
  refine ⟨?_, ?_, ?_⟩
  · rw [execute_eq_findTool uArgs call uOut reg name "" t hfind]
    simp [executeEntry, ht, parseArgs]
  · rw [execute_eq_findTool uArgs call uOut reg name "null" t hfind]
    simp [executeEntry, ht, parseArgs]
  · intro args h1 h2 hu
    rw [execute_eq_findTool uArgs call uOut reg name args t hfind]
    simp [executeEntry, ht, parseArgs, h1, h2, hu]

/-- Witness for C6 on the `noop` registry: empty and `null` argument
strings succeed with the empty-object call, a malformed payload fails with
the argument-parsing error. -/
theorem execute_argument_leniency_witness :
    Execute uArgs0 call0 uOut0 regW "noop" "" = Except.ok "success" ∧
    Execute uArgs0 call0 uOut0 regW "noop" "null" = Except.ok "success" ∧
    Execute uArgs0 call0 uOut0 regW "noop" "\x7bbad json" = Except.error "invalid json args from model" := by
  have h := execute_argument_leniency uArgs0 call0 uOut0 regW "noop" noopEntry rfl rfl
  refine ⟨?_, ?_, h.2.2 "\x7bbad json" (by decide) (by decide) rfl⟩
  · rw [h.1]; rfl
  · rw [h.2.1]; rfl

/-- C7: a remote response that parses with `isError` set makes `Execute`
return a non-error result whose text is the first content block's text
prefixed with `Tool Error: `, or a generic placeholder when the content
list is empty — a tool-reported failure is data for the model, never an
error that aborts the loop. -/
theorem execute_tool_error_as_result_text (uArgs : UnmarshalArgs) (call : MCPCall)
    (uOut : UnmarshalOutput) (reg : List ToolEntry) (name argsJSON : String)
    (t : ToolEntry) (m : ArgsMap) (resBytes : String) (out : MCPOutput)
    (hfind : findTool reg name = some t) (ht : t.type = ToolType.mcp)
    (hargs : parseArgs uArgs argsJSON = Except.ok m)
    (hcall : call t.mcpClientId name m = Except.ok resBytes)
    (hout : uOut resBytes = Except.ok out) (herr : out.isError = true) :
    Execute uArgs call uOut reg name argsJSON =
      Except.ok (match out.content with
        | c :: _ => "Tool Error: " ++ c.text
        | [] => "Tool failed with unspecified error") := by
  obtain ⟨cnt, ierr⟩ := out
  simp only at herr
  subst herr
  rw [execute_eq_findTool uArgs call uOut reg name argsJSON t hfind]
  cases cnt with
  | nil => simp [executeEntry, ht, hargs, mcpInvoke, hcall, hout]
  | cons c rest => simp [executeEntry, ht, hargs, mcpInvoke, hcall, hout]

/-- Witness for C7: a tool reporting `isError` with one content block
yields the non-error result text `Tool Error: boom`. -/
theorem execute_tool_error_as_result_text_witness :
    Execute uArgs0 call0 uOutErr regW "noop" "" = Except.ok "Tool Error: boom" := by
  have h := execute_tool_error_as_result_text uArgs0 call0 uOutErr regW "noop" ""
    noopEntry ArgsMap.empty "raw"
    { content := [{ type := "text", text := "boom" }], isError := true }
    rfl rfl rfl rfl rfl rfl
  rw [h]
  rfl

/-- C9 counterexample: loading two remote sources that both advertise a
tool named `echo` registers two descriptors with the same name — the
registry enforces no cross-source uniqueness. -/
theorem load_mcp_tools_allows_duplicate_names :
    (registryDup.countP (fun t => t.name == "echo")) = 2 ∧ registryDup.length = 2 :=
  ⟨rfl, rfl⟩

/-- C9 amended: the registry tolerates duplicate names; `Execute`
dispatches deterministically to the first registered descriptor whose name
matches (registration order), so a name identifies the first matching
tool, not a unique one. -/
theorem execute_first_match (uArgs : UnmarshalArgs) (call : MCPCall) (uOut : UnmarshalOutput)
    (reg : List ToolEntry) (name argsJSON : String) (t : ToolEntry)
    (hfind : findTool reg name = some t) :
    Execute uArgs call uOut reg name argsJSON = executeEntry uArgs call uOut t name argsJSON :=
  execute_eq_findTool uArgs call uOut reg name argsJSON t hfind

/-- Witness for the amended C9 on the duplicate-name registry: lookup of
`echo` resolves to the first load's entry. -/
theorem execute_first_match_witness :
    findTool registryDup "echo" = some echoEntryA ∧
    Execute uArgs0 call0 uOut0 registryDup "echo" "" =
      executeEntry uArgs0 call0 uOut0 echoEntryA "echo" "" :=
  ⟨rfl, execute_first_match uArgs0 call0 uOut0 registryDup "echo" "" echoEntryA rfl⟩

/-- C10 counterexample: a successful remote response whose first content
block carries an empty string makes `Execute` return the empty result
text — a successful call can yield empty text, contrary to the claim. -/
theorem execute_success_empty_first_block_text :
    Execute uArgs0 call0 uOutEmptyText regW "noop" "" = Except.ok "" := by
  rfl

/-- C10 amended: a remote response that parses with `isError` false makes
`Execute` return, without error, the first content block's text verbatim
(which may itself be empty), ignoring any further blocks; an empty content
list yields the literal `success`. -/
theorem execute_success_first_block_text (uArgs : UnmarshalArgs) (call : MCPCall)
    (uOut : UnmarshalOutput) (reg : List ToolEntry) (name argsJSON : String)
    (t : ToolEntry) (m : ArgsMap) (resBytes : String) (out : MCPOutput)
    (hfind : findTool reg name = some t) (ht : t.type = ToolType.mcp)
    (hargs : parseArgs uArgs argsJSON = Except.ok m)
    (hcall : call t.mcpClientId name m = Except.ok resBytes)
    (hout : uOut resBytes = Except.ok out) (hok : out.isError = false) :
    Execute uArgs call uOut reg name argsJSON =
      Except.ok (match out.content with
        | c :: _ => c.text
        | [] => "success") := by
  obtain ⟨cnt, ierr⟩ := out
  simp only at hok
  subst hok
  rw [execute_eq_findTool uArgs call uOut reg name argsJSON t hfind]
  cases cnt with
  | nil => simp [executeEntry, ht, hargs, mcpInvoke, hcall, hout]
  | cons c rest => simp [executeEntry, ht, hargs, mcpInvoke, hcall, hout]

/-- Witness for the amended C10: a successful response with two content
blocks yields the first block's text and ignores the second. -/
theorem execute_success_first_block_text_witness :
    Execute uArgs0 call0 uOutTwoBlocks regW "noop" "" = Except.ok "first" := by
  have h := execute_success_first_block_text uArgs0 call0 uOutTwoBlocks regW "noop" ""
    noopEntry ArgsMap.empty "raw"
    { content := [{ type := "text", text := "first" }, { type := "text", text := "second" }], isError := false }
    rfl rfl rfl rfl rfl rfl
  rw [h]
